import Mathlib

/-!
Verification development for the wplace-tomsk tile pipeline.

The embedded code is `src/main.py` (functions `download_image` and
`download_and_crop_area`) together with the structurally identical
`download_image` of `src/download_and_merge_tiles.py`.

Embedding conventions:
* Python ints are `Int`; pixel/byte values are `Nat`.
* A PIL image is `Image`: width, height and a total pixel function.
* One fetch attempt (the body of the `try:` block in `download_image`:
  `requests.get` + `raise_for_status` + `Image.open` + `load`) is a value of
  `Except Nat Image`: `.ok img` when the attempt returns an image, `.error e`
  when it raises any exception (both `except` arms catch every `Exception`,
  so an attempt's outcome is always one of the two); the `Nat` stands for the
  caught exception object.  A whole simulated endpoint is a `Transport`:
  attempt number (1-based, as in `range(1, retries + 1)`) to attempt outcome.
* `download_image` returns a triple: the Python return value
  (`Option Image`: the decoded image, or `none` from the final `return None`),
  the number of transport invocations performed (instrumentation), and the
  final value of the local variable `last_error` (which the source only logs).
* `time.sleep` and logging have no observable effect and are omitted.
-/

/-- An RGBA pixel. PIL channels are bytes 0..255; modelled as `Nat`. -/
structure Pixel where
  r : Nat
  g : Nat
  b : Nat
  a : Nat
deriving DecidableEq

/-- A decoded raster: width, height, and a total pixel lookup function
(queried only at in-bounds coordinates by the embedded code). -/
structure Image where
  width : Nat
  height : Nat
  pix : Nat → Nat → Pixel

/-- A simulated tile endpoint: maps the 1-based attempt number to that
attempt's outcome (decoded image, or the exception the attempt raised). -/
def Transport : Type := Nat → Except Nat Image

/-- Whether an attempt outcome is a success (the `return image` path). -/
def okB (r : Except Nat Image) : Bool :=
  match r with
  | .ok _ => true
  | .error _ => false

/-- The retry loop of `download_image` (src/main.py lines 29-51,
src/download_and_merge_tiles.py lines 52-75), by recursion on the number of
attempts remaining. `attempt` is the current 1-based attempt number.
Components of the result: Python return value, transport invocation count,
final `last_error`. A successful attempt returns immediately (`return image`);
a failed attempt stores the exception in `last_error` and continues; after the
last attempt the loop falls through to `return None`. -/
def downloadGo (transport : Transport) (attempt : Nat) :
    Nat → Option Nat → Option Image × Nat × Option Nat
  | 0, last_error => (none, 0, last_error)
  | n + 1, last_error =>
      match transport attempt with
      | .ok image => (some image, 1, last_error)
      | .error e =>
          let r := downloadGo transport (attempt + 1) n (some e)
          (r.1, r.2.1 + 1, r.2.2)

/-- `download_image(url, timeout=30, retries=5, backoff_seconds=1.5)`:
runs up to `retries` attempts starting at attempt 1 with `last_error = None`.
The source's default is `retries = 5`. -/
def download_image (transport : Transport) (retries : Nat) :
    Option Image × Nat × Option Nat :=
  downloadGo transport 1 retries none

lemma downloadGo_all_fail (transport : Transport) :
    ∀ n s last, (∀ i, i < n → okB (transport (s + i)) = false) →
      (downloadGo transport s n last).1 = none ∧
      (downloadGo transport s n last).2.1 = n ∧
      ∀ e, 1 ≤ n → transport (s + n - 1) = .error e →
        (downloadGo transport s n last).2.2 = some e := by
  intro n
  induction n with
  | zero =>
      intro s last _
      refine ⟨rfl, rfl, ?_⟩
      intro e h
      omega
  | succ m ih =>
      intro s last h
      have h0 : okB (transport s) = false := by
        have := h 0 (by omega)
        simpa using this
      cases htr : transport s with
      | ok v => rw [htr] at h0; simp [okB] at h0
      | error e0 =>
          have hshift : ∀ i, i < m → okB (transport (s + 1 + i)) = false := by
            intro i hi
            have := h (i + 1) (by omega)
            have harith : s + (i + 1) = s + 1 + i := by omega
            rwa [harith] at this
          have ihm := ih (s + 1) (some e0) hshift
          refine ⟨?_, ?_, ?_⟩
          · simp only [downloadGo, htr]
            exact ihm.1
          · simp only [downloadGo, htr]
            rw [ihm.2.1]
          · intro e _ he
            simp only [downloadGo, htr]
            cases m with
            | zero =>
                have : s + 1 - 1 = s := by omega
                rw [this] at he
                rw [htr] at he
                injection he with he2
                simp [downloadGo, he2]
            | succ m2 =>
                have harith : s + 1 + (m2 + 1) - 1 = s + (m2 + 1 + 1) - 1 := by
                  omega
                exact ihm.2.2 e (by omega) (by rwa [harith])

lemma downloadGo_succ (transport : Transport) :
    ∀ k s n last img, k < n →
      (∀ i, i < k → okB (transport (s + i)) = false) →
      transport (s + k) = .ok img →
      (downloadGo transport s n last).1 = some img ∧
      (downloadGo transport s n last).2.1 = k + 1 := by
  intro k
  induction k with
  | zero =>
      intro s n last img hk _ hok
      cases n with
      | zero => omega
      | succ m =>
          have : transport s = .ok img := by simpa using hok
          simp [downloadGo, this]
  | succ j ih =>
      intro s n last img hk hfail hok
      cases n with
      | zero => omega
      | succ m =>
          have h0 : okB (transport s) = false := by
            have := hfail 0 (by omega)
            simpa using this
          cases htr : transport s with
          | ok v => rw [htr] at h0; simp [okB] at h0
          | error e0 =>
              have hshift : ∀ i, i < j → okB (transport (s + 1 + i)) = false := by
                intro i hi
                have := hfail (i + 1) (by omega)
                have harith : s + (i + 1) = s + 1 + i := by omega
                rwa [harith] at this
              have hok2 : transport (s + 1 + j) = .ok img := by
                have harith : s + (j + 1) = s + 1 + j := by omega
                rwa [harith] at hok
              have ihm := ih (s + 1) m (some e0) img (by omega) hshift hok2
              constructor
              · simp only [downloadGo, htr]
                exact ihm.1
              · simp only [downloadGo, htr]
                rw [ihm.2]

lemma downloadGo_none (transport : Transport) :
    ∀ n s last, (downloadGo transport s n last).1 = none →
      ∀ i, i < n → okB (transport (s + i)) = false := by
  intro n
  induction n with
  | zero =>
      intro s last _ i hi
      omega
  | succ m ih =>
      intro s last hres i hi
      cases htr : transport s with
      | ok v =>
          rw [show (downloadGo transport s (m + 1) last) =
            (some v, 1, last) by simp [downloadGo, htr]] at hres
          simp at hres
      | error e0 =>
          cases i with
          | zero => simp [htr, okB]
          | succ j =>
              have hres2 : (downloadGo transport (s + 1) m (some e0)).1 = none := by
                simp only [downloadGo, htr] at hres
                exact hres
              have := ih (s + 1) (some e0) hres2 j (by omega)
              have harith : s + 1 + j = s + (j + 1) := by omega
              rwa [harith] at this

lemma downloadGo_some (transport : Transport) :
    ∀ n s last img, (downloadGo transport s n last).1 = some img →
      ∃ k, k < n ∧ (∀ i, i < k → okB (transport (s + i)) = false) ∧
        transport (s + k) = .ok img := by
  intro n
  induction n with
  | zero =>
      intro s last img hres
      simp [downloadGo] at hres
  | succ m ih =>
      intro s last img hres
      cases htr : transport s with
      | ok v =>
          rw [show (downloadGo transport s (m + 1) last) =
            (some v, 1, last) by simp [downloadGo, htr]] at hres
          refine ⟨0, by omega, by intro i hi; omega, ?_⟩
          simp only [Option.some.injEq] at hres
          simpa [hres] using htr
      | error e0 =>
          have hres2 : (downloadGo transport (s + 1) m (some e0)).1 = some img := by
            simp only [downloadGo, htr] at hres
            exact hres
          obtain ⟨k, hk, hfail, hok⟩ := ih (s + 1) (some e0) img hres2
          refine ⟨k + 1, by omega, ?_, ?_⟩
          · intro i hi
            cases i with
            | zero => simp [htr, okB]
            | succ j =>
                have := hfail j (by omega)
                have harith : s + 1 + j = s + (j + 1) := by omega
                rwa [harith] at this
          · have harith : s + 1 + k = s + (k + 1) := by omega
            rwa [harith] at hok

/-!
Image operations, modelled on the Pillow primitives the source calls.

* `Image.new 'RGBA' size (0,0,0,0)` → `Image.new`.
* `dst.paste(tile, (ox, oy), tile)` → `paste`.  Pillow's masked paste with an
  RGBA mask uses the mask's alpha band `m` and, per channel (alpha included),
  writes `BLEND(m, dst, src) = MULDIV255(dst, 255 - m) + MULDIV255(src, m)`
  with `MULDIV255(v, f) = SHIFTFORDIV255(v*f + 128)` and
  `SHIFTFORDIV255(t) = ((t >> 8) + t) >> 8` (libImaging `Paste.c`): where the
  mask is 255 the source pixel is copied, where it is 0 the destination is
  preserved, intermediate values mix the two images.
* `img.crop((l, u, r, b))` → `cropPil`.  Pillow raises `ValueError` when
  `r < l` or `b < u` (in that order); otherwise it returns an
  `(r - l) × (b - u)` image whose out-of-bounds source positions read as
  zero-filled (fully transparent) pixels.
* `img.resize((w, h), Image.Resampling.NEAREST)` → `resizeNearest`: output
  pixel `(x, y)` samples the source at the floor of the pixel-centre map,
  `((2x+1)·width) / (2w)` (and likewise for y).
-/

def SHIFTFORDIV255 (t : Nat) : Nat := (t / 256 + t) / 256

def MULDIV255 (v f : Nat) : Nat := SHIFTFORDIV255 (v * f + 128)

/-- Pillow's per-channel masked-paste blend. -/
def blendc (d s m : Nat) : Nat := MULDIV255 d (255 - m) + MULDIV255 s m

/-- Blend of a source pixel over a destination pixel, the mask being the
source pixel's own alpha (the source calls `paste(tile, pos, tile)`). -/
def blendPixel (d s : Pixel) : Pixel :=
  ⟨blendc d.r s.r s.a, blendc d.g s.g s.a, blendc d.b s.b s.a, blendc d.a s.a s.a⟩

/-- `Image.new('RGBA', (w, h), (0, 0, 0, 0))`: a fully transparent canvas. -/
def Image.new (w h : Nat) : Image := ⟨w, h, fun _ _ => ⟨0, 0, 0, 0⟩⟩

/-- `dst.paste(tile, (ox, oy), tile)` (src/main.py line 145,
src/download_and_merge_tiles.py line 115). -/
def paste (dst tile : Image) (ox oy : Nat) : Image :=
  ⟨dst.width, dst.height, fun x y =>
    if ox ≤ x ∧ x < ox + tile.width ∧ oy ≤ y ∧ y < oy + tile.height then
      blendPixel (dst.pix x y) (tile.pix (x - ox) (y - oy))
    else dst.pix x y⟩

/-- The two `ValueError`s Pillow's `Image.crop` can raise. -/
inductive CropErr where
  | rightLtLeft
  | lowerLtUpper

/-- The raster produced by a non-raising `img.crop((l, u, r, b))`. -/
def cropData (img : Image) (l u r b : Int) : Image :=
  ⟨(r - l).toNat, (b - u).toNat, fun x y =>
    let sx : Int := l + (x : Int)
    let sy : Int := u + (y : Int)
    if 0 ≤ sx ∧ sx < (img.width : Int) ∧ 0 ≤ sy ∧ sy < (img.height : Int) then
      img.pix sx.toNat sy.toNat
    else ⟨0, 0, 0, 0⟩⟩

/-- `img.crop((l, u, r, b))` including Pillow's `ValueError` checks. -/
def cropPil (img : Image) (l u r b : Int) : Except CropErr Image :=
  if r < l then .error .rightLtLeft
  else if b < u then .error .lowerLtUpper
  else .ok (cropData img l u r b)

/-- `img.resize((w, h), Image.Resampling.NEAREST)`. -/
def resizeNearest (img : Image) (w h : Nat) : Image :=
  ⟨w, h, fun x y =>
    img.pix ((2 * x + 1) * img.width / (2 * w)) ((2 * y + 1) * img.height / (2 * h))⟩

/-!
The pipeline of `download_and_crop_area` (src/main.py lines 83-179).

* `range(a, b)` over Python ints → `rangeInt a b`.
* The nested list `tile_coords_to_download` (lines 102-107) is rows of dicts
  `{x, y, url}`; the url is the injective image of `(x, y)` under the
  `BASE_URL` template, so a tile is represented by its coordinate pair and
  the flattened enumeration is `tileCoords` (row-major, y outer).
* The thread pool runs `download_image` once per tile; a whole per-tile
  download is summarised as `fetch : Int → Int → Option Image`, the value
  `download_image(url(x, y))` returns (`None` on terminal failure — by
  `C10`-style totality `download_image` never raises, so the
  `except` arm of the `as_completed` loop, lines 150-152, is dead code).
* The `as_completed` loop pastes each successful tile at
  `((x - tl_x) * 1000, (y - tl_y) * 1000)` (lines 136-145) and appends each
  failed tile to `failed_tiles` (line 149); completion order is arbitrary but
  every paste targets a region determined only by the tile, and the embedding
  performs them in enumeration order → `buildMerged`, `gridFailed`.
* Results of the function: `.failureEmpty` models `return False` at line 111;
  `.exnExecutor` models the uncaught `ValueError` that
  `ThreadPoolExecutor(max_workers=total_tiles)` raises when
  `total_tiles == 0` (line 125); `.failureIncomplete failed_tiles` models
  `return False` at line 158 after logging every entry of `failed_tiles`
  (lines 155-157); `.exnCrop` models the uncaught `ValueError` from
  `merged_image.crop` (line 169); `.ok img` models `return True` at line 179
  with `img` the scaled raster handed to `save_image` (line 178).
* `SCALE_FACTOR` comes from the external configuration collaborator
  (`from config import *`) and is passed as an argument.
-/

/-- Python `range(a, b)` over ints, as a list. -/
def rangeInt (a b : Int) : List Int :=
  (List.range (b - a).toNat).map (fun (i : Nat) => a + (i : Int))

/-- The flattened tile enumeration of src/main.py lines 102-107:
`for y in range(tl_y, br_y + 1): for x in range(tl_x, br_x + 1)`,
each tile recorded as its coordinate pair `(x, y)`. -/
def tileCoords (tl_x tl_y br_x br_y : Int) : List (Int × Int) :=
  ((rangeInt tl_y (br_y + 1)).map
    (fun y => (rangeInt tl_x (br_x + 1)).map (fun x => (x, y)))).flatten

/-- One iteration of the `as_completed` loop for a completed tile `c`
(src/main.py lines 131-149): paste on success, skip on failure. -/
def pasteStep (fetch : Int → Int → Option Image) (tl_x tl_y : Int)
    (img : Image) (c : Int × Int) : Image :=
  match fetch c.1 c.2 with
  | some tile => paste img tile ((c.1 - tl_x).toNat * 1000) ((c.2 - tl_y).toNat * 1000)
  | none => img

/-- The merged canvas after all completions: `Image.new` of
`(grid_size_x * 1000, grid_size_y * 1000)` (lines 119-120) with every
successful tile pasted (lines 131-147). -/
def buildMerged (fetch : Int → Int → Option Image) (tl_x tl_y br_x br_y : Int) :
    Image :=
  (tileCoords tl_x tl_y br_x br_y).foldl (pasteStep fetch tl_x tl_y)
    (Image.new ((rangeInt tl_x (br_x + 1)).length * 1000)
      ((rangeInt tl_y (br_y + 1)).length * 1000))

/-- The final value of `failed_tiles` (src/main.py lines 122, 148-151):
the enumerated tiles whose `download_image` returned `None`. -/
def gridFailed (fetch : Int → Int → Option Image) (tl_x tl_y br_x br_y : Int) :
    List (Int × Int) :=
  (tileCoords tl_x tl_y br_x br_y).filter (fun c => (fetch c.1 c.2).isNone)

/-- Observable outcome of `download_and_crop_area`; see the block comment
above for the line-by-line mapping. -/
inductive PipeResult where
  | ok (img : Image)
  | failureEmpty
  | failureIncomplete (failed : List (Int × Int))
  | exnExecutor
  | exnCrop

/-- `download_and_crop_area(tl_x, tl_y, tl_px_x, tl_px_y, br_x, br_y,
br_px_x, br_px_y)` (src/main.py lines 83-179), with the per-tile download
summarised by `fetch` and the configured `SCALE_FACTOR` passed explicitly. -/
def download_and_crop_area (fetch : Int → Int → Option Image) (SCALE_FACTOR : Nat)
    (tl_x tl_y tl_px_x tl_px_y br_x br_y br_px_x br_px_y : Int) : PipeResult :=
  if rangeInt tl_y (br_y + 1) = [] then .failureEmpty
  else if (rangeInt tl_x (br_x + 1)).length * (rangeInt tl_y (br_y + 1)).length = 0
    then .exnExecutor
  else if gridFailed fetch tl_x tl_y br_x br_y = [] then
    match cropPil (buildMerged fetch tl_x tl_y br_x br_y) tl_px_x tl_px_y
        ((br_x - tl_x) * 1000 + br_px_x) ((br_y - tl_y) * 1000 + br_px_y) with
    | .error _ => .exnCrop
    | .ok cropped =>
        .ok (resizeNearest cropped (cropped.width * SCALE_FACTOR)
          (cropped.height * SCALE_FACTOR))
  else .failureIncomplete (gridFailed fetch tl_x tl_y br_x br_y)

lemma rangeInt_length (a b : Int) : (rangeInt a b).length = (b - a).toNat := by
  rw [rangeInt, List.length_map, List.length_range]

lemma rangeInt_mem {a b x : Int} : x ∈ rangeInt a b ↔ a ≤ x ∧ x < b := by
  rw [rangeInt]
  simp only [List.mem_map, List.mem_range]
  constructor
  · rintro ⟨i, hi, rfl⟩
    omega
  · rintro ⟨h1, h2⟩
    exact ⟨(x - a).toNat, by omega, by omega⟩

lemma rangeInt_nodup (a b : Int) : (rangeInt a b).Nodup := by
  rw [rangeInt]
  refine List.Nodup.map ?_ (List.nodup_range _)
  intro i j hij
  have h2 : a + (i : Int) = a + (j : Int) := hij
  omega

lemma flatten_map_length {α β : Type} (l : List α) (f : α → List β) (k : Nat)
    (h : ∀ x ∈ l, (f x).length = k) :
    ((l.map f).flatten).length = l.length * k := by
  induction l with
  | nil => simp
  | cons y t ih =>
      simp only [List.map_cons, List.flatten_cons, List.length_append,
        List.length_cons]
      rw [h y (by simp), ih (fun x hx => h x (by simp [hx]))]
      ring

lemma mem_tileCoords {tl_x tl_y br_x br_y : Int} {p : Int × Int} :
    p ∈ tileCoords tl_x tl_y br_x br_y ↔
      tl_x ≤ p.1 ∧ p.1 ≤ br_x ∧ tl_y ≤ p.2 ∧ p.2 ≤ br_y := by
  simp only [tileCoords, List.mem_flatten, List.mem_map]
  constructor
  · rintro ⟨L, ⟨y, hy, rfl⟩, hp⟩
    obtain ⟨x, hx, rfl⟩ := List.mem_map.mp hp
    obtain ⟨hy1, hy2⟩ := rangeInt_mem.mp hy
    obtain ⟨hx1, hx2⟩ := rangeInt_mem.mp hx
    exact ⟨hx1, by omega, hy1, by omega⟩
  · rintro ⟨h1, h2, h3, h4⟩
    refine ⟨(rangeInt tl_x (br_x + 1)).map (fun x => (x, p.2)),
      ⟨p.2, rangeInt_mem.mpr ⟨h3, by omega⟩, rfl⟩, ?_⟩
    refine List.mem_map.mpr ⟨p.1, rangeInt_mem.mpr ⟨h1, by omega⟩, ?_⟩
    cases p
    rfl

lemma flatten_rows_nodup (cols : List Int) (hcols : cols.Nodup) :
    ∀ rows : List Int, rows.Nodup →
      ((rows.map (fun y => cols.map (fun x => (x, y)))).flatten).Nodup := by
  intro rows
  induction rows with
  | nil => intro _; simp
  | cons y t ih =>
      intro hnd
      obtain ⟨hyt, htnd⟩ := List.nodup_cons.mp hnd
      simp only [List.map_cons, List.flatten_cons]
      rw [List.nodup_append]
      refine ⟨?_, ih htnd, ?_⟩
      · refine List.Nodup.map ?_ hcols
        intro a b hab
        injection hab
      · intro p hp1 hp2
        obtain ⟨x, _, rfl⟩ := List.mem_map.mp hp1
        obtain ⟨L, hL, hpL⟩ := List.mem_flatten.mp hp2
        obtain ⟨y2, hy2, rfl⟩ := List.mem_map.mp hL
        obtain ⟨x2, _, hx2e⟩ := List.mem_map.mp hpL
        have : y2 = y := by
          have := congrArg Prod.snd hx2e
          simpa using this
        exact hyt (this ▸ hy2)

lemma tileCoords_nodup (tl_x tl_y br_x br_y : Int) :
    (tileCoords tl_x tl_y br_x br_y).Nodup :=
  flatten_rows_nodup _ (rangeInt_nodup _ _) _ (rangeInt_nodup _ _)

/-- C6: for every valid bounding box (top-left tile ≤ bottom-right tile in
both axes), the enumeration of src/main.py lines 102-107 produces exactly
`(br_x − tl_x + 1) × (br_y − tl_y + 1)` tile coordinates, pairwise distinct,
covering the inclusive rectangle `[tl_x .. br_x] × [tl_y .. br_y]`. -/
theorem C6_enumeration (tl_x tl_y br_x br_y : Int)
    (h1 : tl_x ≤ br_x) (h2 : tl_y ≤ br_y) :
    ((tileCoords tl_x tl_y br_x br_y).length : Int)
        = (br_x - tl_x + 1) * (br_y - tl_y + 1)
    ∧ (tileCoords tl_x tl_y br_x br_y).Nodup
    ∧ ∀ p : Int × Int, p ∈ tileCoords tl_x tl_y br_x br_y ↔
        (tl_x ≤ p.1 ∧ p.1 ≤ br_x ∧ tl_y ≤ p.2 ∧ p.2 ≤ br_y) := by
  refine ⟨?_, tileCoords_nodup tl_x tl_y br_x br_y, fun p => mem_tileCoords⟩
  have hlen : (tileCoords tl_x tl_y br_x br_y).length
      = (br_y + 1 - tl_y).toNat * (br_x + 1 - tl_x).toNat := by
    unfold tileCoords
    rw [flatten_map_length _ _ ((br_x + 1 - tl_x).toNat)
      (fun x _ => by rw [List.length_map, rangeInt_length]), rangeInt_length]
  rw [hlen, Int.natCast_mul, Int.toNat_of_nonneg (by omega),
    Int.toNat_of_nonneg (by omega)]
  ring

/-- Witness for C6 at the concrete bounding box (10,20)-(11,21). -/
theorem C6_enumeration_witness :
    (10 : Int) ≤ 11 ∧ (20 : Int) ≤ 21 ∧
    (((tileCoords 10 20 11 21).length : Int) = (11 - 10 + 1) * (21 - 20 + 1)
     ∧ (tileCoords 10 20 11 21).Nodup
     ∧ ∀ p : Int × Int, p ∈ tileCoords 10 20 11 21 ↔
        (10 ≤ p.1 ∧ p.1 ≤ 11 ∧ 20 ≤ p.2 ∧ p.2 ≤ 21)) :=
  ⟨by decide, by decide, C6_enumeration 10 20 11 21 (by decide) (by decide)⟩

/-- A concrete 1000×1000 opaque tile used by witnesses. -/
def imgA : Image := ⟨1000, 1000, fun _ _ => ⟨1, 2, 3, 255⟩⟩

/-- Endpoint failing on attempts 1 and 2, succeeding from attempt 3 on. -/
def cT2 : Transport := fun a => if a ≤ 2 then .error a else .ok imgA

/-- Endpoint failing on every attempt, the error naming the attempt. -/
def cTF : Transport := fun a => .error a

/-- Endpoint failing on every attempt with error 11. -/
def cTE1 : Transport := fun _ => .error 11

/-- Endpoint failing on every attempt with error 22. -/
def cTE2 : Transport := fun _ => .error 22

/-- C4: if the transport fails exactly k < retries times and then succeeds,
`download_image` returns the decoded raster after exactly k+1 transport
invocations; if all `retries` (default 5) tries fail, it returns the terminal
failure `None` after exactly `retries` invocations and makes no further
attempt. -/
theorem C4_retry_count (transport : Transport) (retries : Nat) :
    (∀ k img, k < retries →
        (∀ i, i < k → okB (transport (i + 1)) = false) →
        transport (k + 1) = .ok img →
        (download_image transport retries).1 = some img ∧
        (download_image transport retries).2.1 = k + 1)
    ∧ ((∀ i, i < retries → okB (transport (i + 1)) = false) →
        (download_image transport retries).1 = none ∧
        (download_image transport retries).2.1 = retries) := by
  constructor
  · intro k img hk hfail hok
    exact downloadGo_succ transport k 1 retries none img hk
      (fun i hi => by rw [Nat.add_comm 1 i]; exact hfail i hi)
      (by rwa [Nat.add_comm 1 k])
  · intro hfail
    have h := downloadGo_all_fail transport retries 1 none
      (fun i hi => by rw [Nat.add_comm 1 i]; exact hfail i hi)
    exact ⟨h.1, h.2.1⟩

/-- Witness for C4: two failures then success gives the image after 3 calls;
five failures give `None` after exactly 5 calls. -/
theorem C4_retry_count_witness :
    (download_image cT2 5).1 = some imgA ∧ (download_image cT2 5).2.1 = 3
    ∧ (download_image cTF 5).1 = none ∧ (download_image cTF 5).2.1 = 5 := by
  have h1 := (C4_retry_count cT2 5).1 2 imgA (by decide) (by decide) rfl
  have h2 := (C4_retry_count cTF 5).2 (by decide)
  exact ⟨h1.1, h1.2, h2.1, h2.2⟩

/-- C9 counterexample: two always-failing endpoints whose last observed
errors differ (11 vs 22) give the caller the identical return value `None`
(src/main.py line 51): the terminal failure result carries no error to the
caller, refuting the claim that it carries the last observed error. -/
theorem C9_carries_error_cex :
    (download_image cTE1 5).1 = (download_image cTE2 5).1
    ∧ (download_image cTE1 5).2.2 ≠ (download_image cTE2 5).2.2 :=
  ⟨rfl, by decide⟩

/-- C9 (amended): after the final failed attempt the fetcher's local
`last_error` equals the error of the final attempt, but it is only logged
(src/main.py line 50); the value returned to the caller is the bare `None`,
which carries no error reason. -/
theorem C9_last_error (transport : Transport) (retries : Nat) (e : Nat)
    (hr : 1 ≤ retries)
    (hfail : ∀ i, i < retries → okB (transport (i + 1)) = false)
    (hlast : transport retries = .error e) :
    (download_image transport retries).1 = none ∧
    (download_image transport retries).2.2 = some e := by
  have h := downloadGo_all_fail transport retries 1 none
    (fun i hi => by rw [Nat.add_comm 1 i]; exact hfail i hi)
  refine ⟨h.1, h.2.2 e hr ?_⟩
  have harith : 1 + retries - 1 = retries := by omega
  rwa [harith]

/-- Witness for C9 (amended) at the endpoint always failing with error 11. -/
theorem C9_last_error_witness :
    1 ≤ 5 ∧ (download_image cTE1 5).1 = none
    ∧ (download_image cTE1 5).2.2 = some 11 := by
  have h := C9_last_error cTE1 5 11 (by decide) (by decide) rfl
  exact ⟨by decide, h.1, h.2⟩

/-- C10: fetcher totality. `download_image` is a total function of the
per-attempt outcomes (every exception an attempt raises is caught by the two
`except` arms, src/main.py lines 40-45, and at most triggers the next
attempt): it returns `None` exactly when every attempt failed, and returns an
image only when some attempt succeeded after all earlier ones failed — no
exception escapes its interface. -/
theorem C10_totality (transport : Transport) (retries : Nat) :
    ((download_image transport retries).1 = none ↔
      ∀ i, i < retries → okB (transport (i + 1)) = false)
    ∧ ∀ img, (download_image transport retries).1 = some img →
        ∃ k, k < retries ∧ (∀ i, i < k → okB (transport (i + 1)) = false) ∧
          transport (k + 1) = .ok img := by
  constructor
  · constructor
    · intro h i hi
      have := downloadGo_none transport retries 1 none h i hi
      rwa [Nat.add_comm 1 i] at this
    · intro h
      exact (downloadGo_all_fail transport retries 1 none
        (fun i hi => by rw [Nat.add_comm 1 i]; exact h i hi)).1
  · intro img h
    obtain ⟨k, hk, hfail, hok⟩ := downloadGo_some transport retries 1 none img h
    refine ⟨k, hk, fun i hi => ?_, by rwa [Nat.add_comm 1 k] at hok⟩
    rw [Nat.add_comm i 1]
    exact hfail i hi

/-- Witness for C10 at the always-failing endpoint. -/
theorem C10_totality_witness :
    (download_image cTF 5).1 = none ↔ ∀ i, i < 5 → okB (cTF (i + 1)) = false :=
  (C10_totality cTF 5).1

lemma mem_gridFailed {fetch : Int → Int → Option Image} {tl_x tl_y br_x br_y : Int}
    {p : Int × Int} :
    p ∈ gridFailed fetch tl_x tl_y br_x br_y ↔
      p ∈ tileCoords tl_x tl_y br_x br_y ∧ (fetch p.1 p.2).isNone = true := by
  unfold gridFailed
  rw [List.mem_filter]

lemma rangeInt_ne_nil {a b : Int} (h : a ≤ b) : rangeInt a (b + 1) ≠ [] := by
  intro hc
  have hlen := rangeInt_length a (b + 1)
  rw [hc] at hlen
  simp at hlen
  omega

lemma grid_total_ne {tl_x tl_y br_x br_y : Int} (h1 : tl_x ≤ br_x) (h2 : tl_y ≤ br_y) :
    ¬((rangeInt tl_x (br_x + 1)).length * (rangeInt tl_y (br_y + 1)).length = 0) := by
  rw [rangeInt_length, rangeInt_length]
  intro hc
  rcases Nat.mul_eq_zero.mp hc with h | h <;> omega

lemma pipeline_allok (fetch : Int → Int → Option Image) (SF : Nat)
    (tl_x tl_y tl_px_x tl_px_y br_x br_y br_px_x br_px_y : Int)
    (h1 : tl_x ≤ br_x) (h2 : tl_y ≤ br_y)
    (hall : ∀ p ∈ tileCoords tl_x tl_y br_x br_y, (fetch p.1 p.2).isSome = true) :
    download_and_crop_area fetch SF tl_x tl_y tl_px_x tl_px_y br_x br_y br_px_x br_px_y
      = match cropPil (buildMerged fetch tl_x tl_y br_x br_y) tl_px_x tl_px_y
          ((br_x - tl_x) * 1000 + br_px_x) ((br_y - tl_y) * 1000 + br_px_y) with
        | .error _ => .exnCrop
        | .ok cropped =>
            .ok (resizeNearest cropped (cropped.width * SF) (cropped.height * SF)) := by
  have hf : gridFailed fetch tl_x tl_y br_x br_y = [] := by
    rw [List.eq_nil_iff_forall_not_mem]
    intro p hp
    have hmem := mem_gridFailed.mp hp
    have hs := hall p hmem.1
    have hn := hmem.2
    rw [Option.isNone_iff_eq_none] at hn
    rw [hn] at hs
    simp at hs
  unfold download_and_crop_area
  rw [if_neg (rangeInt_ne_nil h2), if_neg (grid_total_ne h1 h2), if_pos hf]

/-- C7: evidence for the code bug. For a bounding box inverted in x but not
in y (here top-left tile (5, 0), bottom-right tile (3, 0)), the guard at
src/main.py line 109 does not fire (the row list is non-empty, its rows are
empty), `total_tiles` is 0, and `ThreadPoolExecutor(max_workers=0)` at line
125 raises an uncaught `ValueError` — a crash, not the structured failure
the claim requires. (A box inverted in y does return the structured `False`
of line 111.) -/
theorem C7_inverted_x_crash (fetch : Int → Int → Option Image) (SF : Nat)
    (a b c d : Int) :
    download_and_crop_area fetch SF 5 0 a b 3 0 c d = .exnExecutor := rfl

/-- C1: all-or-nothing gate. For every valid bounding box, if at least one
enumerated tile's fetch terminally fails (`download_image` returned `None`),
`download_and_crop_area` returns the overall failure (`return False` at
src/main.py line 158) carrying no raster — no crop, no scale, nothing handed
to `save_image` — and the reported `failed_tiles` list contains exactly the
failed tiles: every failed tile is listed, regardless of how many others
succeeded. -/
theorem C1_all_or_nothing (fetch : Int → Int → Option Image) (SF : Nat)
    (tl_x tl_y tl_px_x tl_px_y br_x br_y br_px_x br_px_y : Int)
    (h1 : tl_x ≤ br_x) (h2 : tl_y ≤ br_y)
    (hex : ∃ p ∈ tileCoords tl_x tl_y br_x br_y, (fetch p.1 p.2).isNone = true) :
    ∃ L, download_and_crop_area fetch SF tl_x tl_y tl_px_x tl_px_y br_x br_y
        br_px_x br_px_y = .failureIncomplete L
      ∧ ∀ p : Int × Int, p ∈ L ↔
          (p ∈ tileCoords tl_x tl_y br_x br_y ∧ (fetch p.1 p.2).isNone = true) := by
  refine ⟨gridFailed fetch tl_x tl_y br_x br_y, ?_, fun p => mem_gridFailed⟩
  have hne : ¬(gridFailed fetch tl_x tl_y br_x br_y = []) := by
    intro hc
    obtain ⟨p, hp, hnone⟩ := hex
    have hmem : p ∈ gridFailed fetch tl_x tl_y br_x br_y :=
      mem_gridFailed.mpr ⟨hp, hnone⟩
    rw [hc] at hmem
    simp at hmem
  unfold download_and_crop_area
  rw [if_neg (rangeInt_ne_nil h2), if_neg (grid_total_ne h1 h2), if_neg hne]

/-- A fetch family in which tile column 0 succeeds and every other fails. -/
def cFetchHalf : Int → Int → Option Image := fun x _ =>
  if x = 0 then some imgA else none

/-- Witness for C1 at the 1×2 box (0,0)-(1,0) where tile (1,0) fails. -/
theorem C1_all_or_nothing_witness :
    (0 : Int) ≤ 1 ∧ (0 : Int) ≤ 0
    ∧ (∃ p ∈ tileCoords 0 0 1 0, (cFetchHalf p.1 p.2).isNone = true)
    ∧ ∃ L, download_and_crop_area cFetchHalf 2 0 0 0 0 1 0 0 0
          = .failureIncomplete L
        ∧ ∀ p : Int × Int, p ∈ L ↔
            (p ∈ tileCoords 0 0 1 0 ∧ (cFetchHalf p.1 p.2).isNone = true) :=
  ⟨by decide, by decide, by decide,
   C1_all_or_nothing cFetchHalf 2 0 0 0 0 1 0 0 0 (by decide) (by decide)
     (by decide)⟩

/-- A fetch family in which every tile succeeds with the opaque tile. -/
def cFetchAll : Int → Int → Option Image := fun _ _ => some imgA

/-- C3: crop rectangle formula. For every valid bounding box whose tiles all
fetch successfully and whose rectangle is not inverted, the raster cropped
from the assembled canvas is exactly the rectangle
`(tl_px_x, tl_px_y, (br_x − tl_x)·1000 + br_px_x, (br_y − tl_y)·1000 + br_px_y)`
computed at src/main.py lines 163-166, then scaled. -/
theorem C3_crop_rect (fetch : Int → Int → Option Image) (SF : Nat)
    (tl_x tl_y tl_px_x tl_px_y br_x br_y br_px_x br_px_y : Int)
    (h1 : tl_x ≤ br_x) (h2 : tl_y ≤ br_y)
    (hall : ∀ p ∈ tileCoords tl_x tl_y br_x br_y, (fetch p.1 p.2).isSome = true)
    (hr : tl_px_x ≤ (br_x - tl_x) * 1000 + br_px_x)
    (hl : tl_px_y ≤ (br_y - tl_y) * 1000 + br_px_y) :
    download_and_crop_area fetch SF tl_x tl_y tl_px_x tl_px_y br_x br_y br_px_x
        br_px_y
      = .ok (resizeNearest
          (cropData (buildMerged fetch tl_x tl_y br_x br_y) tl_px_x tl_px_y
            ((br_x - tl_x) * 1000 + br_px_x) ((br_y - tl_y) * 1000 + br_px_y))
          ((cropData (buildMerged fetch tl_x tl_y br_x br_y) tl_px_x tl_px_y
              ((br_x - tl_x) * 1000 + br_px_x)
              ((br_y - tl_y) * 1000 + br_px_y)).width * SF)
          ((cropData (buildMerged fetch tl_x tl_y br_x br_y) tl_px_x tl_px_y
              ((br_x - tl_x) * 1000 + br_px_x)
              ((br_y - tl_y) * 1000 + br_px_y)).height * SF)) := by
  rw [pipeline_allok fetch SF tl_x tl_y tl_px_x tl_px_y br_x br_y br_px_x br_px_y
    h1 h2 hall]
  unfold cropPil
  rw [if_neg (by omega), if_neg (by omega)]

/-- Witness for C3: two tiles side by side, offsets (2,3) and (4,5). -/
theorem C3_crop_rect_witness :
    (0 : Int) ≤ 1 ∧ (0 : Int) ≤ 0
    ∧ (2 : Int) ≤ (1 - 0) * 1000 + 4 ∧ (3 : Int) ≤ (0 - 0) * 1000 + 5
    ∧ download_and_crop_area cFetchAll 3 0 0 2 3 1 0 4 5
        = .ok (resizeNearest
            (cropData (buildMerged cFetchAll 0 0 1 0) 2 3 ((1 - 0) * 1000 + 4)
              ((0 - 0) * 1000 + 5))
            ((cropData (buildMerged cFetchAll 0 0 1 0) 2 3 ((1 - 0) * 1000 + 4)
                ((0 - 0) * 1000 + 5)).width * 3)
            ((cropData (buildMerged cFetchAll 0 0 1 0) 2 3 ((1 - 0) * 1000 + 4)
                ((0 - 0) * 1000 + 5)).height * 3)) :=
  ⟨by decide, by decide, by decide, by decide,
   C3_crop_rect cFetchAll 3 0 0 2 3 1 0 4 5 (by decide) (by decide)
     (fun p hp => rfl) (by decide) (by decide)⟩

/-- C8 counterexample: a single-tile box whose crop rectangle
`(0, 0, 1500, 1000)` extends 500 pixels beyond the 1000×1000 canvas.  The
claim requires an `InvalidRegion` failure and no cropped raster; the code
performs no bounds check, Pillow pads the out-of-range region with
transparent pixels, and the pipeline succeeds with a 1500-wide raster. -/
theorem C8_no_validation_cex :
    download_and_crop_area cFetchAll 1 0 0 0 0 0 0 1500 1000
      = .ok (resizeNearest (cropData (buildMerged cFetchAll 0 0 0 0) 0 0 1500 1000)
          ((cropData (buildMerged cFetchAll 0 0 0 0) 0 0 1500 1000).width * 1)
          ((cropData (buildMerged cFetchAll 0 0 0 0) 0 0 1500 1000).height * 1))
    ∧ (cropData (buildMerged cFetchAll 0 0 0 0) 0 0 1500 1000).width = 1500
    ∧ (buildMerged cFetchAll 0 0 0 0).width = 1000 :=
  ⟨rfl, rfl, rfl⟩

/-- C8 (amended): the extractor performs no validation of the computed crop
rectangle. A rectangle reaching outside the canvas is silently padded with
transparent pixels and the pipeline succeeds (see the counterexample); only
an inverted rectangle (right < left, or lower < upper) fails, and then via
Pillow's `ValueError` propagating uncaught out of `download_and_crop_area`
(modelled `.exnCrop`), not via a structured `InvalidRegion` result. -/
theorem C8_inverted_rect_exn (fetch : Int → Int → Option Image) (SF : Nat)
    (tl_x tl_y tl_px_x tl_px_y br_x br_y br_px_x br_px_y : Int)
    (h1 : tl_x ≤ br_x) (h2 : tl_y ≤ br_y)
    (hall : ∀ p ∈ tileCoords tl_x tl_y br_x br_y, (fetch p.1 p.2).isSome = true)
    (hinv : (br_x - tl_x) * 1000 + br_px_x < tl_px_x
      ∨ (br_y - tl_y) * 1000 + br_px_y < tl_px_y) :
    download_and_crop_area fetch SF tl_x tl_y tl_px_x tl_px_y br_x br_y br_px_x
      br_px_y = .exnCrop := by
  rw [pipeline_allok fetch SF tl_x tl_y tl_px_x tl_px_y br_x br_y br_px_x br_px_y
    h1 h2 hall]
  unfold cropPil
  by_cases hx : (br_x - tl_x) * 1000 + br_px_x < tl_px_x
  · rw [if_pos hx]
  · rw [if_neg hx, if_pos (by omega)]

/-- Witness for C8 (amended): one tile, right = 200 < left = 500. -/
theorem C8_inverted_rect_exn_witness :
    (0 : Int) ≤ 0 ∧ ((0 - 0) * 1000 + 200 < (500 : Int) ∨ (0 - 0) * 1000 + 1000 < (0 : Int))
    ∧ download_and_crop_area cFetchAll 1 0 0 500 0 0 0 200 1000 = .exnCrop :=
  ⟨by decide, by decide,
   C8_inverted_rect_exn cFetchAll 1 0 0 500 0 0 0 200 1000 (by decide) (by decide)
     (fun p hp => rfl) (by decide)⟩

lemma nearest_index (w n qb d : Nat) (hn : 0 < n) (hb : qb < w) (hd : d < n) :
    (2 * (qb * n + d) + 1) * w / (2 * (w * n)) = qb := by
  have hw : 0 < w := by omega
  have h2n : 0 < 2 * n := by omega
  have e1 : 2 * (w * n) = 2 * n * w := by ring
  have e2 : 2 * (qb * n + d) + 1 = 2 * d + 1 + 2 * n * qb := by ring
  rw [e1, e2, Nat.mul_div_mul_right _ _ hw, Nat.add_mul_div_left _ _ h2n,
    Nat.div_eq_of_lt (by omega)]
  omega

/-- C5: rescaler correctness. For every raster and every scale factor n ≥ 1,
resizing to `(width · n, height · n)` with `Image.Resampling.NEAREST`
(src/main.py lines 173-175, src/download_and_merge_tiles.py line 136) yields
a raster of exactly that size in which every n×n output block uniformly
copies the one corresponding source pixel — no interpolation, no blending
across block boundaries — and n = 1 leaves all pixels unchanged. -/
theorem C5_rescaler (img : Image) (n : Nat) (h : 1 ≤ n) :
    (resizeNearest img (img.width * n) (img.height * n)).width = img.width * n
    ∧ (resizeNearest img (img.width * n) (img.height * n)).height = img.height * n
    ∧ (∀ qx qy dx dy, qx < img.width → qy < img.height → dx < n → dy < n →
        (resizeNearest img (img.width * n) (img.height * n)).pix
          (qx * n + dx) (qy * n + dy) = img.pix qx qy)
    ∧ (n = 1 → ∀ x y, x < img.width → y < img.height →
        (resizeNearest img (img.width * n) (img.height * n)).pix x y
          = img.pix x y) := by
  refine ⟨rfl, rfl, ?_, ?_⟩
  · intro qx qy dx dy hqx hqy hdx hdy
    show img.pix ((2 * (qx * n + dx) + 1) * img.width / (2 * (img.width * n)))
      ((2 * (qy * n + dy) + 1) * img.height / (2 * (img.height * n))) = img.pix qx qy
    rw [nearest_index img.width n qx dx (by omega) hqx hdx,
      nearest_index img.height n qy dy (by omega) hqy hdy]
  · intro hn1 x y hx hy
    subst hn1
    show img.pix ((2 * x + 1) * img.width / (2 * (img.width * 1)))
      ((2 * y + 1) * img.height / (2 * (img.height * 1))) = img.pix x y
    have h1 : (2 * x + 1) * img.width / (2 * (img.width * 1)) = x := by
      have := nearest_index img.width 1 x 0 (by omega) hx (by omega)
      simpa using this
    have h2 : (2 * y + 1) * img.height / (2 * (img.height * 1)) = y := by
      have := nearest_index img.height 1 y 0 (by omega) hy (by omega)
      simpa using this
    rw [h1, h2]

/-- A 2×2 raster with four distinct pixels, for the C5 witness. -/
def img2 : Image := ⟨2, 2, fun x y => ⟨x, y, 0, 255⟩⟩

/-- Witness for C5: the spec's 2×2-by-factor-3 example, sampled inside the
(1,0) block. -/
theorem C5_rescaler_witness :
    1 ≤ 3 ∧ (resizeNearest img2 (img2.width * 3) (img2.height * 3)).pix
      (1 * 3 + 2) (0 * 3 + 1) = img2.pix 1 0 :=
  ⟨by decide, (C5_rescaler img2 3 (by decide)).2.2.1 1 0 2 1 (by decide)
    (by decide) (by decide) (by decide)⟩

lemma MULDIV255_zero_left (m : Nat) : MULDIV255 0 m = 0 := by
  simp [MULDIV255, SHIFTFORDIV255]

set_option maxRecDepth 4000 in
lemma MULDIV255_self_255 : ∀ s, s ≤ 255 → MULDIV255 s 255 = s := by decide

lemma blendc_clear (s m : Nat) : blendc 0 s m = MULDIV255 s m := by
  unfold blendc
  rw [MULDIV255_zero_left]
  omega

/-- The pixel a tile pixel becomes when pasted (with itself as mask) onto the
fully transparent canvas: every channel, alpha included, is scaled by the
pixel's own alpha through Pillow's `MULDIV255`. -/
def pasteOnClear (p : Pixel) : Pixel :=
  ⟨MULDIV255 p.r p.a, MULDIV255 p.g p.a, MULDIV255 p.b p.a, MULDIV255 p.a p.a⟩

lemma blendPixel_clear (p : Pixel) : blendPixel ⟨0, 0, 0, 0⟩ p = pasteOnClear p := by
  unfold blendPixel pasteOnClear
  simp [blendc_clear]

lemma pasteOnClear_opaque (p : Pixel) (ha : p.a = 255) (hr : p.r ≤ 255)
    (hg : p.g ≤ 255) (hb : p.b ≤ 255) : pasteOnClear p = p := by
  obtain ⟨r, g, b, a⟩ := p
  simp only at ha hr hg hb
  subst ha
  unfold pasteOnClear
  simp only
  rw [MULDIV255_self_255 r hr, MULDIV255_self_255 g hg, MULDIV255_self_255 b hb,
    MULDIV255_self_255 255 (by omega)]

lemma paste_pix_in (dst tile : Image) (ox oy x y : Nat)
    (h : ox ≤ x ∧ x < ox + tile.width ∧ oy ≤ y ∧ y < oy + tile.height) :
    (paste dst tile ox oy).pix x y
      = blendPixel (dst.pix x y) (tile.pix (x - ox) (y - oy)) := by
  show (if ox ≤ x ∧ x < ox + tile.width ∧ oy ≤ y ∧ y < oy + tile.height then
      blendPixel (dst.pix x y) (tile.pix (x - ox) (y - oy))
    else dst.pix x y) = _
  rw [if_pos h]

lemma paste_pix_out (dst tile : Image) (ox oy x y : Nat)
    (h : ¬(ox ≤ x ∧ x < ox + tile.width ∧ oy ≤ y ∧ y < oy + tile.height)) :
    (paste dst tile ox oy).pix x y = dst.pix x y := by
  show (if ox ≤ x ∧ x < ox + tile.width ∧ oy ≤ y ∧ y < oy + tile.height then
      blendPixel (dst.pix x y) (tile.pix (x - ox) (y - oy))
    else dst.pix x y) = _
  rw [if_neg h]

lemma fold_pix_untouched (fetch : Int → Int → Option Image) (tl_x tl_y : Int) :
    ∀ (L : List (Int × Int)) (img : Image) (X Y : Nat),
      (∀ c ∈ L, ∀ t, fetch c.1 c.2 = some t →
        ¬((c.1 - tl_x).toNat * 1000 ≤ X ∧ X < (c.1 - tl_x).toNat * 1000 + t.width
          ∧ (c.2 - tl_y).toNat * 1000 ≤ Y
          ∧ Y < (c.2 - tl_y).toNat * 1000 + t.height)) →
      (L.foldl (pasteStep fetch tl_x tl_y) img).pix X Y = img.pix X Y := by
  intro L
  induction L with
  | nil => intro img X Y _; rfl
  | cons c rest ih =>
      intro img X Y hnone
      rw [List.foldl_cons,
        ih (pasteStep fetch tl_x tl_y img c) X Y
          (fun c2 h2 => hnone c2 (by simp [h2]))]
      unfold pasteStep
      cases hf : fetch c.1 c.2 with
      | none => rfl
      | some t => exact paste_pix_out img t _ _ X Y (hnone c (by simp) t hf)

lemma fold_pix_one (fetch : Int → Int → Option Image) (tl_x tl_y : Int)
    (c0 : Int × Int) (t0 : Image) (hf0 : fetch c0.1 c0.2 = some t0) :
    ∀ (L : List (Int × Int)) (img : Image) (X Y : Nat),
      c0 ∈ L → L.Nodup →
      ((c0.1 - tl_x).toNat * 1000 ≤ X ∧ X < (c0.1 - tl_x).toNat * 1000 + t0.width
        ∧ (c0.2 - tl_y).toNat * 1000 ≤ Y
        ∧ Y < (c0.2 - tl_y).toNat * 1000 + t0.height) →
      (∀ c ∈ L, c ≠ c0 → ∀ t, fetch c.1 c.2 = some t →
        ¬((c.1 - tl_x).toNat * 1000 ≤ X ∧ X < (c.1 - tl_x).toNat * 1000 + t.width
          ∧ (c.2 - tl_y).toNat * 1000 ≤ Y
          ∧ Y < (c.2 - tl_y).toNat * 1000 + t.height)) →
      (L.foldl (pasteStep fetch tl_x tl_y) img).pix X Y
        = blendPixel (img.pix X Y)
            (t0.pix (X - (c0.1 - tl_x).toNat * 1000)
              (Y - (c0.2 - tl_y).toNat * 1000)) := by
  intro L
  induction L with
  | nil => intro img X Y hmem; simp at hmem
  | cons c rest ih =>
      intro img X Y hmem hnd hreg hother
      obtain ⟨hcr, hndr⟩ := List.nodup_cons.mp hnd
      rw [List.foldl_cons]
      by_cases hc : c = c0
      · subst hc
        rw [fold_pix_untouched fetch tl_x tl_y rest
          (pasteStep fetch tl_x tl_y img c) X Y ?hrest]
        case hrest =>
          intro c2 h2 t hfc2
          have hne2 : c2 ≠ c := by
            intro hcc
            exact hcr (hcc ▸ h2)
          exact hother c2 (by simp [h2]) hne2 t hfc2
        unfold pasteStep
        rw [hf0]
        exact paste_pix_in img t0 _ _ X Y hreg
      · have hc0r : c0 ∈ rest := by
          rcases List.mem_cons.mp hmem with h | h
          · exact absurd h.symm hc
          · exact h
        rw [ih (pasteStep fetch tl_x tl_y img c) X Y hc0r hndr hreg
          (fun c2 h2 hne2 t hfc2 => hother c2 (by simp [h2]) hne2 t hfc2)]
        have hstep : (pasteStep fetch tl_x tl_y img c).pix X Y = img.pix X Y := by
          unfold pasteStep
          cases hf : fetch c.1 c.2 with
          | none => rfl
          | some t =>
              exact paste_pix_out img t _ _ X Y
                (hother c (by simp) hc t hf)
        rw [hstep]

/-- C2 (amended): assembler pixel law. For every successfully fetched
1000×1000 tile at `(x0, y0)` of a valid all-successful grid, the assembled
canvas pixel at `(col·1000 + px, row·1000 + py)` equals the tile's pixel at
`(px, py)` pushed through Pillow's masked-paste blend against the transparent
canvas — every channel scaled by the pixel's own alpha (`pasteOnClear`); in
particular a fully opaque byte pixel (alpha 255) is copied exactly, but the
paste is not a plain overwrite for pixels with partial or zero alpha. -/
theorem C2_assembler_blend (fetch : Int → Int → Option Image)
    (tl_x tl_y br_x br_y x0 y0 : Int) (px py : Nat) (t : Image)
    (h1 : tl_x ≤ br_x) (h2 : tl_y ≤ br_y)
    (hall : ∀ p ∈ tileCoords tl_x tl_y br_x br_y,
      ∃ u, fetch p.1 p.2 = some u ∧ u.width = 1000 ∧ u.height = 1000)
    (hx1 : tl_x ≤ x0) (hx2 : x0 ≤ br_x) (hy1 : tl_y ≤ y0) (hy2 : y0 ≤ br_y)
    (hpx : px < 1000) (hpy : py < 1000)
    (ht : fetch x0 y0 = some t) :
    (buildMerged fetch tl_x tl_y br_x br_y).pix
        ((x0 - tl_x).toNat * 1000 + px) ((y0 - tl_y).toNat * 1000 + py)
      = pasteOnClear (t.pix px py)
    ∧ ((t.pix px py).a = 255 → (t.pix px py).r ≤ 255 → (t.pix px py).g ≤ 255 →
        (t.pix px py).b ≤ 255 →
        (buildMerged fetch tl_x tl_y br_x br_y).pix
            ((x0 - tl_x).toNat * 1000 + px) ((y0 - tl_y).toNat * 1000 + py)
          = t.pix px py) := by
  have hmemb : ((x0, y0) : Int × Int) ∈ tileCoords tl_x tl_y br_x br_y :=
    mem_tileCoords.mpr ⟨hx1, hx2, hy1, hy2⟩
  obtain ⟨u, hu, huw, huh⟩ := hall (x0, y0) hmemb
  have hst : some u = some t := hu.symm.trans ht
  have hut : u = t := by injection hst
  subst hut
  have hreg : (x0 - tl_x).toNat * 1000 ≤ (x0 - tl_x).toNat * 1000 + px
      ∧ (x0 - tl_x).toNat * 1000 + px < (x0 - tl_x).toNat * 1000 + u.width
      ∧ (y0 - tl_y).toNat * 1000 ≤ (y0 - tl_y).toNat * 1000 + py
      ∧ (y0 - tl_y).toNat * 1000 + py < (y0 - tl_y).toNat * 1000 + u.height := by
    rw [huw, huh]
    omega
  have hother : ∀ c ∈ tileCoords tl_x tl_y br_x br_y, c ≠ ((x0, y0) : Int × Int) →
      ∀ u2, fetch c.1 c.2 = some u2 →
      ¬((c.1 - tl_x).toNat * 1000 ≤ (x0 - tl_x).toNat * 1000 + px
        ∧ (x0 - tl_x).toNat * 1000 + px < (c.1 - tl_x).toNat * 1000 + u2.width
        ∧ (c.2 - tl_y).toNat * 1000 ≤ (y0 - tl_y).toNat * 1000 + py
        ∧ (y0 - tl_y).toNat * 1000 + py < (c.2 - tl_y).toNat * 1000 + u2.height) := by
    intro c hc hne u2 hfu2 hcov
    obtain ⟨w2, hw2, hw2w, hw2h⟩ := hall c hc
    have hsw : some u2 = some w2 := hfu2.symm.trans hw2
    have huw2 : u2 = w2 := by injection hsw
    subst huw2
    rw [hw2w, hw2h] at hcov
    have hbnd := mem_tileCoords.mp hc
    obtain ⟨cx, cy⟩ := c
    dsimp only at hbnd hcov hne
    have hcx : cx = x0 := by omega
    have hcy : cy = y0 := by omega
    subst hcx
    subst hcy
    exact hne rfl
  have hfold := fold_pix_one fetch tl_x tl_y (x0, y0) u ht
    (tileCoords tl_x tl_y br_x br_y)
    (Image.new ((rangeInt tl_x (br_x + 1)).length * 1000)
      ((rangeInt tl_y (br_y + 1)).length * 1000))
    ((x0 - tl_x).toNat * 1000 + px) ((y0 - tl_y).toNat * 1000 + py)
    hmemb (tileCoords_nodup tl_x tl_y br_x br_y) hreg hother
  have hmain : (buildMerged fetch tl_x tl_y br_x br_y).pix
      ((x0 - tl_x).toNat * 1000 + px) ((y0 - tl_y).toNat * 1000 + py)
      = pasteOnClear (u.pix px py) := by
    unfold buildMerged
    rw [hfold]
    show blendPixel ⟨0, 0, 0, 0⟩
      (u.pix ((x0 - tl_x).toNat * 1000 + px - (x0 - tl_x).toNat * 1000)
        ((y0 - tl_y).toNat * 1000 + py - (y0 - tl_y).toNat * 1000))
      = pasteOnClear (u.pix px py)
    rw [Nat.add_sub_cancel_left, Nat.add_sub_cancel_left, blendPixel_clear]
  refine ⟨hmain, fun ha hr hg hb => ?_⟩
  rw [hmain, pasteOnClear_opaque _ ha hr hg hb]

/-- A 1000×1000 tile whose pixels are red but fully transparent. -/
def cTileZ : Image := ⟨1000, 1000, fun _ _ => ⟨255, 0, 0, 0⟩⟩

/-- A fetch family returning the transparent red tile everywhere. -/
def cFetchZ : Int → Int → Option Image := fun _ _ => some cTileZ

/-- C2 counterexample: for the single-tile grid whose tile pixel at (0,0)
is `(255, 0, 0, 0)` (red, alpha 0), the assembled canvas pixel at (0,0) is
`(0, 0, 0, 0)` — Pillow's masked paste preserves the destination where the
mask is 0 — so the canvas pixel does not equal the tile pixel and the paste
is not a plain overwrite, refuting the claim as stated. -/
theorem C2_overwrite_cex :
    (buildMerged cFetchZ 0 0 0 0).pix 0 0 ≠ cTileZ.pix 0 0 := by decide

/-- A 1000×1000 tile of the uniform opaque pixel `(7, 8, 9, 255)`. -/
def cTileB : Image := ⟨1000, 1000, fun _ _ => ⟨7, 8, 9, 255⟩⟩

/-- A fetch family returning the opaque tile everywhere. -/
def cFetchB : Int → Int → Option Image := fun _ _ => some cTileB

/-- Witness for C2 (amended) at the single-tile box, pixel (5, 6). -/
theorem C2_assembler_blend_witness :
    5 < 1000 ∧ (cTileB.pix 5 6).a = 255
    ∧ (buildMerged cFetchB 0 0 0 0).pix (((0 : Int) - 0).toNat * 1000 + 5)
        (((0 : Int) - 0).toNat * 1000 + 6) = pasteOnClear (cTileB.pix 5 6)
    ∧ (buildMerged cFetchB 0 0 0 0).pix (((0 : Int) - 0).toNat * 1000 + 5)
        (((0 : Int) - 0).toNat * 1000 + 6) = cTileB.pix 5 6 := by
  have h := C2_assembler_blend cFetchB 0 0 0 0 0 0 5 6 cTileB (by decide)
    (by decide) (fun p hp => ⟨cTileB, rfl, rfl, rfl⟩) (by decide) (by decide)
    (by decide) (by decide) (by decide) (by decide) rfl
  exact ⟨by decide, rfl, h.1, h.2 rfl (by decide) (by decide) (by decide)⟩
